import Mathlib

/-!
Verification of the f2_web_app frontend against its design specification.

The definitions below are a shallow embedding of the TypeScript sources:
  - `frontend/src/components/panels/SettingsPanel.tsx` (SettingsPanel and
    TasksPanel components: user-list normalization, batch parsing, the naming
    template gate, the websocket log buffer, pagination tokens),
  - `frontend/src/lib/api.ts` (the `request` helper, `readErrorMessage`,
    auth-token handling),
  - `frontend/src/router.tsx` (`normalizeSettings`),
  - `frontend/src/lib/ws.ts` (`connectTaskWs` event dispatch).
Backend operations that the frontend calls (TaskManager.cancel,
EventHub.subscribe, the paginated task listing) are not part of the
frontend sources; where a claim needs them they are modelled from the
specification and marked as such in their doc comments.

JavaScript strings are modelled as Lean `String`/`List Char`; JavaScript
`Array.prototype.slice`, `split`, `join`, `filter` and `String.prototype.trim`
are given explicit executable counterparts.
-/

namespace F2WebApp

/-- A log line as held by the client: `{timestamp, level, message}`. -/
structure LogEntry where
  timestamp : String
  level : String
  message : String
deriving DecidableEq

/-- A crawl target `{name, url}` (interface `UserTarget` in `lib/api.ts`). -/
structure UserTarget where
  name : String
  url : String
deriving DecidableEq

/-- Character class matched by JavaScript `String.prototype.trim`
(restricted to the ASCII whitespace that can occur in this UI's inputs). -/
def isJsSpace (c : Char) : Bool :=
  c = ' ' || c = '\t' || c = '\n' || c = '\r' || c = '\x0b' || c = '\x0c'

/-- JavaScript `String.prototype.trim` on a character list. -/
def jsTrim (cs : List Char) : List Char :=
  ((cs.dropWhile isJsSpace).reverse.dropWhile isJsSpace).reverse

/-- JavaScript `String.prototype.trim` on a `String`. -/
def trimStr (s : String) : String :=
  String.mk (jsTrim s.data)

/-- JavaScript `xs.slice(-n)`: the last `n` elements (all of them when
`xs.length ≤ n`). -/
def jsSliceLast (n : Nat) (xs : List α) : List α :=
  xs.drop (xs.length - n)

/-- The `TasksPanel` websocket handler log append:
`setSelectedTaskLogs((prev) => [...prev, log].slice(-1000))`. -/
def appendLog (prev : List LogEntry) (log : LogEntry) : List LogEntry :=
  jsSliceLast 1000 (prev ++ [log])

/-- Function `normalizeUserList` from `SettingsPanel.tsx` / `TasksPanel.tsx`: trim both
fields, keep entries whose trimmed url is non-empty. -/
def normalizeUserList (userList : List UserTarget) : List UserTarget :=
  (userList.map (fun item => { name := trimStr item.name, url := trimStr item.url })).filter
    (fun item => 0 < item.url.length)

/-- Outcome of `onStartTask` in `TasksPanel`: either the submission is rejected
before `api.createTask` is reached, or `api.createTask(userList)` is invoked. -/
inductive StartOutcome where
  | error (msg : String)
  | created (userList : List UserTarget)
deriving DecidableEq

/-- Function `onStartTask(userList)` from `TasksPanel`: throws `用户列表为空` when the
list is empty, otherwise calls `api.createTask(userList)`. -/
def onStartTask (userList : List UserTarget) : StartOutcome :=
  if userList.length = 0 then StartOutcome.error "用户列表为空"
  else StartOutcome.created userList

/-- Outcome of `openStartTaskDialog` in `TasksPanel`: the dialog either refuses
to open (empty normalized list) or opens with all candidates selected. -/
inductive DialogOutcome where
  | error (msg : String)
  | opened (users : List UserTarget) (selected : List Nat)
deriving DecidableEq

/-- Function `openStartTaskDialog` from `TasksPanel`: normalizes the stored user list,
rejects when the result is empty, otherwise opens with every index selected. -/
def openStartTaskDialog (settingsUserList : List UserTarget) : DialogOutcome :=
  let users := normalizeUserList settingsUserList
  if users.length = 0 then DialogOutcome.error "用户列表为空，请先在设置中添加有效用户"
  else DialogOutcome.opened users (List.range users.length)

theorem string_pos_iff_ne_empty (s : String) : 0 < s.length ↔ s ≠ "" := by
  cases s with
  | mk data => cases data <;> simp [String.length, String.ext_iff]

theorem appendLog_length (logs : List LogEntry) (l : LogEntry) :
    (appendLog logs l).length = min (logs.length + 1) 1000 := by
  simp [appendLog, jsSliceLast]
  omega

/-- CLAIM C1. The per-task log buffer kept by the client's websocket handler is
a bounded FIFO ring: appending entries never grows the stored list beyond 1000,
appending onto a full buffer of 1000 entries drops exactly the oldest entry,
and appending below the cap is a plain append. -/
theorem log_buffer_is_bounded_fifo_ring
    (logs : List LogEntry) (l : LogEntry) (entries : List LogEntry) :
    (logs.length ≤ 1000 → (entries.foldl appendLog logs).length ≤ 1000)
    ∧ (logs.length = 1000 →
        appendLog logs l = logs.drop 1 ++ [l] ∧ (appendLog logs l).length = 1000)
    ∧ (logs.length < 1000 → appendLog logs l = logs ++ [l]) := by
  refine ⟨?_, ?_, ?_⟩
  · intro h
    induction entries generalizing logs with
    | nil => simpa using h
    | cons e es ih =>
      simp only [List.foldl_cons]
      exact ih (appendLog logs e) (by rw [appendLog_length]; omega)
  · intro h
    constructor
    · cases logs with
      | nil => simp at h
      | cons x xs =>
        simp only [appendLog, jsSliceLast]
        simp only [List.length_append, List.length_cons, List.length_singleton] at h ⊢
        have : xs.length + 1 + 1 - 1000 = 1 := by omega
        simp [this]
    · rw [appendLog_length]; omega
  · intro h
    unfold appendLog jsSliceLast
    have h0 : (logs ++ [l]).length - 1000 = 0 := by simp; omega
    rw [h0, List.drop_zero]

/-- Witness for C1 at a concrete full buffer. -/
theorem log_buffer_is_bounded_fifo_ring_witness :
    appendLog (List.replicate 1000 ⟨"t", "info", "m"⟩) ⟨"t2", "info", "m2"⟩ =
      (List.replicate 1000 (⟨"t", "info", "m"⟩ : LogEntry)).drop 1 ++ [⟨"t2", "info", "m2"⟩] :=
  ((log_buffer_is_bounded_fifo_ring (List.replicate 1000 ⟨"t", "info", "m"⟩)
    ⟨"t2", "info", "m2"⟩ []).2.1 (List.length_replicate _ _)).1

/-- CLAIM C2. Submission-time normalization trims both fields of every entry and
keeps exactly the entries whose trimmed url is non-empty; a list that is empty
after normalization is rejected with the empty-user-list error before any task
creation: the start-task dialog refuses to open, and `onStartTask` on an empty
list throws without invoking `api.createTask`. -/
theorem submit_normalizes_and_rejects_empty (l : List UserTarget) :
    normalizeUserList l =
      (l.map (fun i => { name := trimStr i.name, url := trimStr i.url })).filter
        (fun i => i.url ≠ "")
    ∧ (normalizeUserList l = [] →
        openStartTaskDialog l = DialogOutcome.error "用户列表为空，请先在设置中添加有效用户")
    ∧ (∀ users : List UserTarget, users = [] →
        onStartTask users = StartOutcome.error "用户列表为空") := by
  refine ⟨?_, ?_, ?_⟩
  · unfold normalizeUserList
    congr 1
    funext i
    exact decide_eq_decide.mpr (string_pos_iff_ne_empty i.url)
  · intro h
    unfold openStartTaskDialog
    simp [h]
  · intro users h
    subst h
    rfl

/-- Witness for C2: a list whose only entry has a blank url normalizes to `[]`
and is rejected. -/
theorem submit_normalizes_and_rejects_empty_witness :
    openStartTaskDialog [⟨" a ", "   "⟩] =
      DialogOutcome.error "用户列表为空，请先在设置中添加有效用户" :=
  (submit_normalizes_and_rejects_empty [⟨" a ", "   "⟩]).2.1 (by decide)

/-- Task status union from `lib/api.ts`:
`'pending' | 'running' | 'success' | 'failed' | 'cancelled'`. -/
inductive TaskStatus where
  | pending
  | running
  | success
  | failed
  | cancelled
deriving DecidableEq, BEq

/-- Terminal statuses per the spec's task state machine (§4.2). -/
def TaskStatus.isTerminal : TaskStatus → Bool
  | .success => true
  | .failed => true
  | .cancelled => true
  | _ => false

/-- The `TasksPanel` row gating:
`const canCancel = !["success", "failed", "cancelled"].includes(task.status)`. -/
def canCancelTask (status : TaskStatus) : Bool :=
  !([TaskStatus.success, TaskStatus.failed, TaskStatus.cancelled].contains status)

/-- The mutable task fields relevant to cancellation. -/
structure TaskRec where
  status : TaskStatus
  cancelRequested : Bool
deriving DecidableEq

inductive CancelError where
  | notFound
  | alreadyTerminal
deriving DecidableEq

/-- Modelled from the spec: `TaskManager.cancel(task_id)` (the backend
TaskManager is not under the frontend sources). "fails with `NotFound` if
unknown; fails with `AlreadyTerminal` if the task already reached a terminal
status; otherwise sets `cancel_requested` and, if still `pending`, transitions
directly to `cancelled`". The registry lookup result is passed in. -/
def cancelTask (lookup : Option TaskRec) : Except CancelError TaskRec :=
  match lookup with
  | none => Except.error CancelError.notFound
  | some t =>
    if t.status.isTerminal then Except.error CancelError.alreadyTerminal
    else if t.status = TaskStatus.pending then
      Except.ok { t with status := TaskStatus.cancelled, cancelRequested := true }
    else
      Except.ok { t with cancelRequested := true }

/-- CLAIM C3. Cancelling a task in a terminal status (`success`, `failed`,
`cancelled`) is rejected with `AlreadyTerminal` (and the client's cancel button
is disabled for exactly those statuses); cancelling a `pending` or `running`
task is permitted and sets the cancellation flag, with `pending` transitioning
directly to `cancelled`; an unknown id fails with `NotFound`. -/
theorem cancel_rejects_terminal_allows_live (t : TaskRec) :
    ((t.status = TaskStatus.success ∨ t.status = TaskStatus.failed ∨
        t.status = TaskStatus.cancelled) →
      cancelTask (some t) = Except.error CancelError.alreadyTerminal ∧
        canCancelTask t.status = false)
    ∧ ((t.status = TaskStatus.pending ∨ t.status = TaskStatus.running) →
        (∃ t2, cancelTask (some t) = Except.ok t2 ∧ t2.cancelRequested = true) ∧
          canCancelTask t.status = true)
    ∧ cancelTask none = Except.error CancelError.notFound
    ∧ (t.status = TaskStatus.pending →
        cancelTask (some t) =
          Except.ok { t with status := TaskStatus.cancelled, cancelRequested := true }) := by
  refine ⟨?_, ?_, rfl, ?_⟩
  · rintro (h | h | h) <;>
      exact ⟨by simp [cancelTask, TaskStatus.isTerminal, h], by rw [h]; rfl⟩
  · rintro (h | h)
    · exact ⟨⟨{ t with status := TaskStatus.cancelled, cancelRequested := true },
        by simp [cancelTask, TaskStatus.isTerminal, h], rfl⟩, by rw [h]; rfl⟩
    · exact ⟨⟨{ t with cancelRequested := true },
        by simp [cancelTask, TaskStatus.isTerminal, h], rfl⟩, by rw [h]; rfl⟩
  · intro h
    simp [cancelTask, TaskStatus.isTerminal, h]

/-- Witness for C3 at concrete terminal and live tasks. -/
theorem cancel_rejects_terminal_allows_live_witness :
    cancelTask (some ⟨TaskStatus.success, false⟩) = Except.error CancelError.alreadyTerminal
    ∧ cancelTask (some ⟨TaskStatus.pending, false⟩) =
        Except.ok ⟨TaskStatus.cancelled, true⟩ :=
  ⟨((cancel_rejects_terminal_allows_live ⟨TaskStatus.success, false⟩).1 (Or.inl rfl)).1,
    (cancel_rejects_terminal_allows_live ⟨TaskStatus.pending, false⟩).2.2.2 rfl⟩

/-- The slice of `TaskDetail` that the websocket snapshot carries to the client
(`logs` may be absent in the raw JSON, hence `Option`). -/
structure TaskView where
  task_id : String
  status : TaskStatus
  logs : Option (List LogEntry)
deriving DecidableEq

/-- A frame of the live channel: `{task_id, type, timestamp, message, data}`,
with the optional `task` payload of snapshot frames and the optional
`data.level` field read by the client. -/
structure WsEvent where
  type : String
  task : Option TaskView
  message : Option String
  timestamp : String
  dataLevel : Option String
deriving DecidableEq

/-- The client view state mutated by the `TasksPanel` websocket handler. -/
structure ClientViewState where
  selectedTask : Option TaskView
  selectedTaskLogs : List LogEntry
deriving DecidableEq

/-- Log level chosen by the handler: `data.level` lowercased when it is a
non-empty string, otherwise `error` for `*failed` events and `info` else. -/
def wsLogLevel (evt : WsEvent) : String :=
  let levelFromData :=
    match evt.dataLevel with
    | some s => if s ≠ "" then s.toLower else ""
    | none => ""
  if levelFromData ≠ "" then levelFromData
  else if evt.type.endsWith "failed" then "error" else "info"

/-- The `evt.message` branch of the handler: append a log entry (through the
1000-capped buffer) when the event carries a non-empty message. -/
def wsLogBranch (st : ClientViewState) (evt : WsEvent) : ClientViewState :=
  match evt.message with
  | some m =>
    if m ≠ "" then
      { st with selectedTaskLogs :=
          appendLog st.selectedTaskLogs ⟨evt.timestamp, wsLogLevel evt, m⟩ }
    else st
  | none => st

/-- The `TasksPanel` websocket event handler (`connectTaskWs` callback):
`error` events only trigger a logout (view state untouched here); a `snapshot`
event carrying a task replaces the displayed task and logs wholesale; any other
event with a message appends a log entry. -/
def applyWsEvent (st : ClientViewState) (evt : WsEvent) : ClientViewState :=
  if evt.type = "error" then st
  else
    match evt.task with
    | some t =>
      if evt.type = "snapshot" then
        { selectedTask := some t, selectedTaskLogs := t.logs.getD [] }
      else wsLogBranch st evt
    | none => wsLogBranch st evt

/-- Modelled from the spec: the `snapshot` event that `EventHub.subscribe`
emits first, carrying the task's full current state including buffered logs
(the backend EventHub is not under the frontend sources). -/
def snapshotEvent (t : TaskView) : WsEvent :=
  { type := "snapshot", task := some t, message := none, timestamp := "", dataLevel := none }

/-- Modelled from the spec: `subscribe(task_id) → stream` "on subscribe, first
emits a `snapshot` event carrying the task's full current state (including
buffered logs), then streams subsequent deltas". -/
def subscribeStream (t : TaskView) (deltas : List WsEvent) : List WsEvent :=
  snapshotEvent t :: deltas

/-- CLAIM C4. The first event of a subscription is the snapshot of the task's
current state, and the client handler processes any snapshot event by replacing
the displayed task and log list with exactly the snapshot's contents (the empty
list when the snapshot carries no logs), regardless of the previous state. -/
theorem subscribe_snapshot_replaces_state
    (t : TaskView) (deltas : List WsEvent) (st : ClientViewState) :
    (subscribeStream t deltas).head? = some (snapshotEvent t)
    ∧ applyWsEvent st (snapshotEvent t) =
        { selectedTask := some t, selectedTaskLogs := t.logs.getD [] }
    ∧ (t.logs = none →
        applyWsEvent st (snapshotEvent t) =
          { selectedTask := some t, selectedTaskLogs := [] })
    ∧ (∀ evt : WsEvent, evt.type = "snapshot" → evt.task = some t →
        applyWsEvent st evt =
          { selectedTask := some t, selectedTaskLogs := t.logs.getD [] }) := by
  refine ⟨rfl, ?_, ?_, ?_⟩
  · simp [applyWsEvent, snapshotEvent]
  · intro h
    simp [applyWsEvent, snapshotEvent, h]
  · intro evt htype htask
    simp [applyWsEvent, htype, htask]

/-- Witness for C4: a snapshot with no log payload resets the log list. -/
theorem subscribe_snapshot_replaces_state_witness :
    applyWsEvent ⟨none, [⟨"t", "info", "old"⟩]⟩ (snapshotEvent ⟨"id1", TaskStatus.running, none⟩) =
      ⟨some ⟨"id1", TaskStatus.running, none⟩, []⟩ :=
  (subscribe_snapshot_replaces_state ⟨"id1", TaskStatus.running, none⟩ []
    ⟨none, [⟨"t", "info", "old"⟩]⟩).2.2.1 rfl

/-- The task list row (`TaskSummary` in `lib/api.ts`), with `created_at`
modelled as a comparable instant for the newest-first ordering. -/
structure TaskSummaryRec where
  task_id : String
  created_at : Int
  status : TaskStatus
deriving DecidableEq

/-- Newest-first ordering on task rows: `a` precedes `b` when `a` was created
at or after `b`. -/
def newerFirst (a b : TaskSummaryRec) : Prop :=
  b.created_at ≤ a.created_at

instance : DecidableRel newerFirst := fun a b =>
  inferInstanceAs (Decidable (b.created_at ≤ a.created_at))

instance : IsTotal TaskSummaryRec newerFirst :=
  ⟨fun a b => le_total b.created_at a.created_at⟩

instance : IsTrans TaskSummaryRec newerFirst :=
  ⟨fun _ _ _ hab hbc => le_trans hbc hab⟩

/-- The paginated response `{items, total, has_more}`. -/
structure TaskListPage where
  items : List TaskSummaryRec
  total : Nat
  has_more : Bool
deriving DecidableEq

/-- Modelled from the spec: `list(offset, limit) → {items, total, has_more}`
returning tasks ordered newest-first (the current `lib/api.ts`, whose
`listTasks({offset, limit})` the router's `loadDashboardData` and `TasksPanel`
call and whose `DEFAULT_TASK_LIST_LIMIT` they import, is not under the packed
sources; the packed `api.ts` is an older revision with an unpaginated
`listTasks`). The registry contents are passed in as a list. -/
def listTasks (registry : List TaskSummaryRec) (offset limit : Nat) : TaskListPage :=
  let sorted := List.insertionSort newerFirst registry
  { items := (sorted.drop offset).take limit
    total := registry.length
    has_more := decide (offset + limit < registry.length) }

/-- CLAIM C5. The task listing takes `offset` and `limit` and returns a record
`{items, total, has_more}` — not a bare array: `total` counts all tasks,
`has_more` says whether tasks remain past this page, `items` is the
offset/limit window of the newest-first ordering (so every returned page is
sorted newest-first, and the full window is a permutation of the registry). -/
theorem list_tasks_paginated_newest_first
    (registry : List TaskSummaryRec) (offset limit : Nat) :
    (listTasks registry offset limit).total = registry.length
    ∧ (listTasks registry offset limit).has_more = decide (offset + limit < registry.length)
    ∧ (listTasks registry offset limit).items.Pairwise newerFirst
    ∧ (listTasks registry 0 registry.length).items.Perm registry
    ∧ (listTasks registry offset limit).items =
        ((List.insertionSort newerFirst registry).drop offset).take limit := by
  refine ⟨rfl, rfl, ?_, ?_, rfl⟩
  · have hsorted : (List.insertionSort newerFirst registry).Pairwise newerFirst :=
      List.sorted_insertionSort newerFirst registry
    have hsub : List.Sublist
        (((List.insertionSort newerFirst registry).drop offset).take limit)
        (List.insertionSort newerFirst registry) :=
      (List.take_sublist _ _).trans (List.drop_sublist _ _)
    exact hsorted.sublist hsub
  · have hperm : (List.insertionSort newerFirst registry).Perm registry :=
      List.perm_insertionSort newerFirst registry
    have hlen : (List.insertionSort newerFirst registry).length = registry.length :=
      hperm.length_eq
    show List.Perm (((List.insertionSort newerFirst registry).drop 0).take registry.length)
      registry
    rw [List.drop_zero, ← hlen, List.take_length]
    exact hperm

/-- JSON field of the error payload as the client sees it: a string value, a
value of another type, or absent. -/
inductive JsonField where
  | strVal (s : String)
  | nonStr
  | missing
deriving DecidableEq

/-- The parsed JSON error body, as far as `readErrorMessage` inspects it. -/
structure JsonErrorPayload where
  detail : JsonField
  message : JsonField
  stringified : String
deriving DecidableEq

/-- The shape of a `fetch` response, as far as `request` / `readErrorMessage`
inspect it. `jsonBody = none` models a rejected `response.json()`. -/
structure ApiResponse where
  ok : Bool
  status : Nat
  contentTypeJson : Bool
  jsonBody : Option JsonErrorPayload
  textBody : String
deriving DecidableEq

/-- Function `readErrorMessage` from `lib/api.ts`: for JSON responses prefer a string
`detail`, then a string `message`, then the stringified payload (or the status
fallback when parsing fails); otherwise the body text or the status fallback. -/
def readErrorMessage (r : ApiResponse) : String :=
  if r.contentTypeJson then
    match r.jsonBody with
    | none => "Request failed: " ++ toString r.status
    | some payload =>
      match payload.detail with
      | JsonField.strVal s => s
      | _ =>
        match payload.message with
        | JsonField.strVal s => s
        | _ => payload.stringified
  else if r.textBody ≠ "" then r.textBody
  else "Request failed: " ++ toString r.status

inductive RequestResult where
  | success
  | unauthorizedErr (msg : String)
  | genericErr (msg : String)
deriving DecidableEq

/-- The error dispatch of `request` from `lib/api.ts`: ok responses succeed,
a 401 raises `UnauthorizedError` (with a default message when the read one is
empty), any other non-ok status raises a plain `Error`. -/
def requestOutcome (resp : ApiResponse) : RequestResult :=
  if resp.ok then RequestResult.success
  else
    let message := readErrorMessage resp
    if resp.status = 401 then
      RequestResult.unauthorizedErr (if message ≠ "" then message else "未授权，请先登录")
    else
      RequestResult.genericErr
        (if message ≠ "" then message else "Request failed: " ++ toString resp.status)

/-- The `Authorization` header set by `request`:
`if (authToken) headers.set('Authorization', Bearer ...)` — a stored empty
string is falsy and sets nothing. -/
def authorizationHeader (authToken : Option String) : Option String :=
  match authToken with
  | some t => if t ≠ "" then some ("Bearer " ++ t) else none
  | none => none

/-- A 401 JSON response whose `detail` field is the empty string. -/
def emptyDetailResp : ApiResponse :=
  { ok := false, status := 401, contentTypeJson := true,
    jsonBody := some { detail := JsonField.strVal "", message := JsonField.missing,
                       stringified := "\x7b\x7d" },
    textBody := "" }

/-- CLAIM C6, counterexample. On a 401 whose payload's `detail` is the (string)
value `""`, the thrown `UnauthorizedError` carries the fallback message, not
the `detail` string: the claim's "message is the detail string whenever detail
is a string" fails at this input. -/
theorem unauthorized_message_not_always_detail :
    emptyDetailResp.jsonBody = some { detail := JsonField.strVal "",
                                      message := JsonField.missing,
                                      stringified := "\x7b\x7d" }
    ∧ requestOutcome emptyDetailResp = RequestResult.unauthorizedErr "未授权，请先登录"
    ∧ requestOutcome emptyDetailResp ≠ RequestResult.unauthorizedErr "" := by
  exact ⟨rfl, rfl, by decide⟩

/-- CLAIM C6 as amended. With a non-empty stored bearer token the
`Authorization: Bearer <token>` header is attached; a 401 response whose JSON
payload has a non-empty string `detail` fails with `UnauthorizedError` carrying
exactly that detail (an empty detail falls back to a default message); any
other non-ok status raises a generic error. -/
theorem request_auth_header_and_401_detail
    (token : Option String) (t : String) (resp : ApiResponse)
    (p : JsonErrorPayload) (s : String) :
    (token = some t → t ≠ "" → authorizationHeader token = some ("Bearer " ++ t))
    ∧ (resp.ok = false → resp.status = 401 → resp.contentTypeJson = true →
        resp.jsonBody = some p → p.detail = JsonField.strVal s → s ≠ "" →
        requestOutcome resp = RequestResult.unauthorizedErr s)
    ∧ (resp.ok = false → resp.status ≠ 401 →
        ∃ m, requestOutcome resp = RequestResult.genericErr m) := by
  refine ⟨?_, ?_, ?_⟩
  · intro htok hne
    subst htok
    simp [authorizationHeader, hne]
  · intro hok h401 hjson hbody hdetail hs
    have hmsg : readErrorMessage resp = s := by
      simp [readErrorMessage, hjson, hbody, hdetail]
    simp [requestOutcome, hok, h401, hmsg, hs]
  · intro hok h401
    refine ⟨if readErrorMessage resp ≠ "" then readErrorMessage resp
      else "Request failed: " ++ toString resp.status, ?_⟩
    simp only [requestOutcome, hok, Bool.false_eq_true, if_false, h401, if_neg h401]

/-- Witness for the amended C6 at concrete inputs. -/
theorem request_auth_header_and_401_detail_witness :
    authorizationHeader (some "tok") = some ("Bearer " ++ "tok")
    ∧ requestOutcome
        { ok := false, status := 401, contentTypeJson := true,
          jsonBody := some { detail := JsonField.strVal "bad token",
                             message := JsonField.missing, stringified := "" },
          textBody := "" } = RequestResult.unauthorizedErr "bad token" :=
  ⟨(request_auth_header_and_401_detail (some "tok") "tok" emptyDetailResp
      ⟨JsonField.missing, JsonField.missing, ""⟩ "x").1 rfl (by decide),
    (request_auth_header_and_401_detail none ""
      { ok := false, status := 401, contentTypeJson := true,
        jsonBody := some { detail := JsonField.strVal "bad token",
                           message := JsonField.missing, stringified := "" },
        textBody := "" }
      { detail := JsonField.strVal "bad token", message := JsonField.missing,
        stringified := "" } "bad token").2.1
      rfl rfl rfl rfl rfl (by decide)⟩

/-- JavaScript `Array.prototype.filter` with the index argument. -/
def filterWithIndex (p : Nat → Bool) (l : List α) : List α :=
  (l.enum.filter (fun pr => p pr.1)).map (fun pr => pr.2)

/-- The placeholder row `{ name: "", url: "" }`. -/
def placeholderUser : UserTarget := ⟨"", ""⟩

/-- Function `removeUser(index)` from `SettingsPanel`: drop the row at `index`,
substituting the placeholder row when the result would be empty. -/
def removeUser (userList : List UserTarget) (index : Nat) : List UserTarget :=
  let next := filterWithIndex (fun i => i ≠ index) userList
  if 0 < next.length then next else [placeholderUser]

/-- Function `removeSelectedUsers` from `SettingsPanel`: no-op on an empty selection,
otherwise drop all selected rows, substituting the placeholder row when the
result would be empty. -/
def removeSelectedUsers (userList : List UserTarget) (selected : List Nat) :
    List UserTarget :=
  if selected.length = 0 then userList
  else
    let next := filterWithIndex (fun i => !(selected.contains i)) userList
    if 0 < next.length then next else [placeholderUser]

/-- Function `normalizeSettings` from `router.tsx`, restricted to the `user_list` field:
substitute the placeholder row when the loaded list is empty. -/
def normalizeSettingsUserList (l : List UserTarget) : List UserTarget :=
  if 0 < l.length then l else [placeholderUser]

theorem one_le_placeholder_ite_length (next : List UserTarget) :
    1 ≤ (if 0 < next.length then next else [placeholderUser]).length := by
  by_cases h : 0 < next.length
  · rw [if_pos h]; omega
  · rw [if_neg h]; simp

/-- CLAIM C9. The settings user list never becomes empty: removing one row and
the router's settings normalization always leave at least one entry (inserting
the placeholder row when needed), and removing the selected rows leaves at
least one entry whenever the selection is non-empty — and in every case
preserves non-emptiness. -/
theorem user_list_never_empty (l : List UserTarget) (i : Nat) (sel : List Nat) :
    1 ≤ (removeUser l i).length
    ∧ (sel ≠ [] → 1 ≤ (removeSelectedUsers l sel).length)
    ∧ (1 ≤ l.length → 1 ≤ (removeSelectedUsers l sel).length)
    ∧ 1 ≤ (normalizeSettingsUserList l).length := by
  refine ⟨?_, ?_, ?_, ?_⟩
  · exact one_le_placeholder_ite_length _
  · intro hsel
    unfold removeSelectedUsers
    rw [if_neg (by simpa [List.length_eq_zero] using hsel)]
    exact one_le_placeholder_ite_length _
  · intro hl
    unfold removeSelectedUsers
    rcases eq_or_ne sel.length 0 with h | h
    · rw [if_pos h]; exact hl
    · rw [if_neg h]
      exact one_le_placeholder_ite_length _
  · exact one_le_placeholder_ite_length _

/-- Witness for C9: deleting the only row and deleting a selected-everything
selection both leave the placeholder row. -/
theorem user_list_never_empty_witness :
    removeUser [⟨"a", "u"⟩] 0 = [placeholderUser]
    ∧ 1 ≤ (removeSelectedUsers [⟨"a", "u"⟩] [0]).length :=
  ⟨by decide, (user_list_never_empty [⟨"a", "u"⟩] 0 [0]).2.1 (by decide)⟩

/-- JavaScript `input.split(/\r?\n/)`: both `\n` and `\r\n` separate lines
(a lone `\r` does not). -/
def splitLines : List Char → List (List Char)
  | [] => [[]]
  | '\r' :: '\n' :: rest => [] :: splitLines rest
  | '\n' :: rest => [] :: splitLines rest
  | c :: rest =>
    match splitLines rest with
    | [] => [[c]]
    | h :: t => (c :: h) :: t

/-- JavaScript `text.split(sep)` for a one-character separator: the (never
empty) list of chunks between occurrences of `sep`. -/
def splitAll (sep : Char) : List Char → List (List Char)
  | [] => [[]]
  | c :: cs =>
    if c = sep then [] :: splitAll sep cs
    else
      match splitAll sep cs with
      | [] => [[c]]
      | h :: t => (c :: h) :: t

/-- JavaScript `parts.join(sep)` for a one-character separator. -/
def joinSep (sep : Char) : List (List Char) → List Char
  | [] => []
  | [x] => x
  | x :: xs => x ++ sep :: joinSep sep xs

/-- Split at the first occurrence of `sep`: `some (before, after)` when `sep`
occurs, `none` otherwise. -/
def splitFirst (sep : Char) : List Char → Option (List Char × List Char)
  | [] => none
  | c :: cs =>
    if c = sep then some ([], cs)
    else
      match splitFirst sep cs with
      | none => none
      | some (b, a) => some (c :: b, a)

/-- One separator case of `parseBatchUsers`:
`const [first, ...rest] = text.split(sep); name = first.trim();
url = rest.join(sep).trim();`. -/
def splitJoin (sep : Char) (text : List Char) : List Char × List Char :=
  match splitAll sep text with
  | [] => ([], [])
  | first :: rest => (jsTrim first, jsTrim (joinSep sep rest))

/-- One loop iteration of `parseBatchUsers` from `SettingsPanel.tsx`: trim the
line, skip it when blank, split on tab, else comma, else pipe, else treat the
whole line as the url; push only when the url is non-empty. -/
def parseLineSrc (line : List Char) : Option UserTarget :=
  let text := jsTrim line
  if text = [] then none
  else
    let nu :=
      if text.contains '\t' then splitJoin '\t' text
      else if text.contains ',' then splitJoin ',' text
      else if text.contains '|' then splitJoin '|' text
      else ([], text)
    if nu.2 ≠ [] then some ⟨String.mk nu.1, String.mk nu.2⟩ else none

/-- Function `parseBatchUsers` from `SettingsPanel.tsx`. -/
def parseBatchUsers (input : String) : List UserTarget :=
  (splitLines input.data).filterMap parseLineSrc

/-- The specification's reading of one line: split at the FIRST tab (else first
comma, else first pipe) into trimmed name and url; a line with no separator is
all url. -/
def parseLineSpec (line : List Char) : Option UserTarget :=
  let text := jsTrim line
  if text = [] then none
  else
    let nu :=
      match splitFirst '\t' text with
      | some (b, a) => (jsTrim b, jsTrim a)
      | none =>
        match splitFirst ',' text with
        | some (b, a) => (jsTrim b, jsTrim a)
        | none =>
          match splitFirst '|' text with
          | some (b, a) => (jsTrim b, jsTrim a)
          | none => ([], text)
    if nu.2 ≠ [] then some ⟨String.mk nu.1, String.mk nu.2⟩ else none

theorem splitAll_ne_nil (sep : Char) (cs : List Char) : splitAll sep cs ≠ [] := by
  cases cs with
  | nil => simp [splitAll]
  | cons c cs =>
    unfold splitAll
    by_cases h : c = sep
    · simp [h]
    · rw [if_neg h]
      cases splitAll sep cs <;> simp

theorem joinSep_splitAll (sep : Char) (cs : List Char) :
    joinSep sep (splitAll sep cs) = cs := by
  induction cs with
  | nil => rfl
  | cons c cs ih =>
    unfold splitAll
    by_cases h : c = sep
    · rw [if_pos h]
      obtain ⟨h0, t0, he⟩ := List.exists_cons_of_ne_nil (splitAll_ne_nil sep cs)
      rw [he] at ih ⊢
      simp only [joinSep]
      rw [ih, h]
      rfl
    · rw [if_neg h]
      obtain ⟨h0, t0, he⟩ := List.exists_cons_of_ne_nil (splitAll_ne_nil sep cs)
      rw [he] at ih ⊢
      cases t0 with
      | nil => simpa [joinSep] using ih
      | cons t1 t2 => simpa [joinSep] using ih

theorem splitFirst_eq_none_iff (sep : Char) (cs : List Char) :
    splitFirst sep cs = none ↔ cs.contains sep = false := by
  induction cs with
  | nil => simp [splitFirst]
  | cons c cs ih =>
    unfold splitFirst
    by_cases h : c = sep
    · subst h
      simp
    · rw [if_neg h]
      cases hs : splitFirst sep cs with
      | none =>
        have hmem : sep ∉ cs := by simpa using ih.mp hs
        have hne : ¬ sep = c := fun he => h he.symm
        simp [hs, hmem, hne]
      | some p =>
        have hcs : cs.contains sep = true := by
          cases hval : cs.contains sep
          · exact absurd (ih.mpr hval) (by simp [hs])
          · rfl
        have hmem : sep ∈ cs := by simpa using hcs
        simp [hs, hmem]

theorem splitAll_of_splitFirst (sep : Char) (cs : List Char) :
    ∀ b a, splitFirst sep cs = some (b, a) →
    splitAll sep cs = b :: splitAll sep a := by
  induction cs with
  | nil => intro b a h; simp [splitFirst] at h
  | cons c cs ih =>
    intro b a h
    unfold splitFirst at h
    by_cases hc : c = sep
    · rw [if_pos hc] at h
      simp only [Option.some_inj, Prod.mk.injEq] at h
      obtain ⟨hb, ha⟩ := h
      rw [← hb, ← ha]
      conv_lhs => rw [splitAll]
      rw [if_pos hc]
    · rw [if_neg hc] at h
      cases hs : splitFirst sep cs with
      | none => rw [hs] at h; cases h
      | some p =>
        obtain ⟨b2, a2⟩ := p
        rw [hs] at h
        simp only [Option.some_inj, Prod.mk.injEq] at h
        obtain ⟨hb, ha⟩ := h
        rw [← hb, ← ha]
        conv_lhs => rw [splitAll]
        rw [if_neg hc, ih b2 a2 hs]

theorem splitJoin_of_splitFirst (sep : Char) (text b a : List Char)
    (h : splitFirst sep text = some (b, a)) :
    splitJoin sep text = (jsTrim b, jsTrim a) := by
  unfold splitJoin
  rw [splitAll_of_splitFirst sep text b a h]
  show (jsTrim b, jsTrim (joinSep sep (splitAll sep a))) = (jsTrim b, jsTrim a)
  rw [joinSep_splitAll]

theorem parseLineSrc_eq_spec (line : List Char) :
    parseLineSrc line = parseLineSpec line := by
  unfold parseLineSrc parseLineSpec
  by_cases h0 : jsTrim line = []
  · simp [h0]
  · simp only [if_neg h0]
    have key : ∀ sep : Char,
        (jsTrim line).contains sep = true →
        ∃ b a, splitFirst sep (jsTrim line) = some (b, a) := by
      intro sep hc
      cases hs : splitFirst sep (jsTrim line) with
      | none => rw [(splitFirst_eq_none_iff sep _).mp hs] at hc; cases hc
      | some p =>
        obtain ⟨b, a⟩ := p
        exact ⟨b, a, rfl⟩
    by_cases ht : (jsTrim line).contains '\t'
    · obtain ⟨b, a, hs⟩ := key '\t' ht
      rw [if_pos ht, hs, splitJoin_of_splitFirst _ _ _ _ hs]
    · rw [if_neg ht, (splitFirst_eq_none_iff '\t' _).mpr (by simpa using ht)]
      by_cases hcm : (jsTrim line).contains ','
      · obtain ⟨b, a, hs⟩ := key ',' hcm
        rw [if_pos hcm, hs, splitJoin_of_splitFirst _ _ _ _ hs]
      · rw [if_neg hcm, (splitFirst_eq_none_iff ',' _).mpr (by simpa using hcm)]
        by_cases hp : (jsTrim line).contains '|'
        · obtain ⟨b, a, hs⟩ := key '|' hp
          rw [if_pos hp, hs, splitJoin_of_splitFirst _ _ _ _ hs]
        · rw [if_neg hp, (splitFirst_eq_none_iff '|' _).mpr (by simpa using hp)]

theorem parseLineSrc_url_ne (line : List Char) (u : UserTarget)
    (h : parseLineSrc line = some u) : u.url ≠ "" := by
  unfold parseLineSrc at h
  by_cases h0 : jsTrim line = []
  · simp [h0] at h
  · simp only [if_neg h0] at h
    by_cases h2 : (if (jsTrim line).contains '\t' then splitJoin '\t' (jsTrim line)
        else if (jsTrim line).contains ',' then splitJoin ',' (jsTrim line)
        else if (jsTrim line).contains '|' then splitJoin '|' (jsTrim line)
        else ([], jsTrim line)).2 ≠ []
    · rw [if_pos h2] at h
      obtain rfl := Option.some_inj.mp h
      simpa [String.ext_iff] using h2
    · rw [if_neg h2] at h
      cases h

/-- CLAIM C8. `parseBatchUsers` processes lines in input order: a blank or
whitespace-only line contributes nothing; a line containing a tab is split at
its first tab into trimmed name and url, else at the first comma, else at the
first pipe; a line with none of these separators becomes `{name: "", url:
trimmed line}`; and only entries with a non-empty url are returned. -/
theorem parse_batch_users_first_separator (input : String) :
    parseBatchUsers input = (splitLines input.data).filterMap parseLineSpec
    ∧ (∀ u ∈ parseBatchUsers input, u.url ≠ "")
    ∧ (∀ line : List Char, jsTrim line = [] → parseLineSrc line = none)
    ∧ (∀ line : List Char, jsTrim line ≠ [] →
        (jsTrim line).contains '\t' = false → (jsTrim line).contains ',' = false →
        (jsTrim line).contains '|' = false →
        parseLineSrc line = some ⟨"", String.mk (jsTrim line)⟩) := by
  refine ⟨?_, ?_, ?_, ?_⟩
  · unfold parseBatchUsers
    exact List.filterMap_congr (fun line _ => parseLineSrc_eq_spec line)
  · intro u hu
    unfold parseBatchUsers at hu
    obtain ⟨line, _, hline⟩ := List.mem_filterMap.mp hu
    exact parseLineSrc_url_ne line u hline
  · intro line h
    unfold parseLineSrc
    simp [h]
  · intro line h0 ht hcm hp
    unfold parseLineSrc
    rw [if_neg h0, ht, hcm, hp]
    simp only [Bool.false_eq_true, if_false]
    rw [if_pos h0]

/-- Witness for C8 on a concrete batch input: a comma line, a blank line, a
bare-url line, and a name-only comma line (dropped for its empty url). -/
theorem parse_batch_users_first_separator_witness :
    parseBatchUsers " 小红 , https://a \n\nurl1\nname,\n" =
      [⟨"小红", "https://a"⟩, ⟨"", "url1"⟩]
    ∧ (⟨"", "url1"⟩ : UserTarget).url ≠ "" :=
  ⟨by decide,
    (parse_batch_users_first_separator " 小红 , https://a \n\nurl1\nname,\n").2.1
      ⟨"", "url1"⟩ (by decide)⟩

/-- The placeholder bodies admitted by `NAMING_TEMPLATE_PATTERN`:
`nickname | create | aweme_id | desc | uid`. -/
def namingLits : List (List Char) :=
  [['n', 'i', 'c', 'k', 'n', 'a', 'm', 'e'],
   ['c', 'r', 'e', 'a', 't', 'e'],
   ['a', 'w', 'e', 'm', 'e', '_', 'i', 'd'],
   ['d', 'e', 's', 'c'],
   ['u', 'i', 'd']]

/-- Consume the literal `ls` from the front of `cs`. -/
def dropLit : List Char → List Char → Option (List Char)
  | [], cs => some cs
  | _ :: _, [] => none
  | l :: ls, c :: cs => if c = l then dropLit ls cs else none

/-- Try each literal `\x7b<body>\x7d` in turn (regex alternation). -/
def consumeAny : List (List Char) → List Char → Option (List Char)
  | [], _ => none
  | p :: ps, cs =>
    match dropLit ('{' :: (p ++ ['}'])) cs with
    | some rest => some rest
    | none => consumeAny ps cs

/-- Consume one `\x7bplaceholder\x7d` token of `NAMING_TEMPLATE_PATTERN`. -/
def consumePlaceholder (cs : List Char) : Option (List Char) :=
  consumeAny namingLits cs

/-- Fuel-indexed matcher for `NAMING_TEMPLATE_PATTERN`: one placeholder, then
zero or more `[_-]` separators each followed by a placeholder, to end of
input. -/
def matchesFromFuel : Nat → List Char → Bool
  | 0, _ => false
  | fuel + 1, cs =>
    match consumePlaceholder cs with
    | none => false
    | some [] => true
    | some (c :: rest) => ((c == '_') || (c == '-')) && matchesFromFuel fuel rest

/-- Test `NAMING_TEMPLATE_PATTERN.test` from `SettingsPanel.tsx`:
`^\x7b(nickname|create|aweme_id|desc|uid)\x7d([_-]\x7b...\x7d)*$`.
The fuel `length + 1` dominates the number of separators. -/
def matchesNamingTemplate (s : String) : Bool :=
  matchesFromFuel (s.data.length + 1) s.data

/-- The string `\x7bp0\x7d` followed by `sep\x7bp\x7d` for each `(sep, p)` in
`rest` — the spec's description of a well-formed naming template. -/
def renderTemplate (p0 : List Char) (rest : List (Char × List Char)) : List Char :=
  '{' :: (p0 ++ '}' :: rest.foldr (fun pr acc => pr.1 :: '{' :: (pr.2 ++ '}' :: acc)) [])

/-- The spec-side characterization: a non-empty sequence of admitted
placeholders joined by single `_` or `-` separators. -/
def ValidTemplate (cs : List Char) : Prop :=
  ∃ p0 rest, p0 ∈ namingLits ∧
    (∀ pr ∈ rest, (pr.1 = '_' ∨ pr.1 = '-') ∧ pr.2 ∈ namingLits) ∧
    cs = renderTemplate p0 rest

theorem dropLit_some_iff (ls : List Char) :
    ∀ cs r, dropLit ls cs = some r ↔ cs = ls ++ r := by
  induction ls with
  | nil => intro cs r; simp [dropLit, eq_comm]
  | cons l ls ih =>
    intro cs r
    cases cs with
    | nil => simp [dropLit]
    | cons c cs =>
      by_cases h : c = l
      · subst h
        simp [dropLit, ih]
      · simp [dropLit, h]

theorem consumeAny_some (ps : List (List Char)) :
    ∀ cs r, consumeAny ps cs = some r →
    ∃ p ∈ ps, cs = '{' :: (p ++ ('}' :: r)) := by
  induction ps with
  | nil => intro cs r h; simp [consumeAny] at h
  | cons p ps ih =>
    intro cs r h
    unfold consumeAny at h
    cases hd : dropLit ('{' :: (p ++ ['}'])) cs with
    | some rest =>
      rw [hd] at h
      obtain rfl : rest = r := Option.some_inj.mp h
      refine ⟨p, List.mem_cons_self p ps, ?_⟩
      have := (dropLit_some_iff _ cs rest).mp hd
      simpa using this
    | none =>
      rw [hd] at h
      obtain ⟨q, hq, he⟩ := ih cs r h
      exact ⟨q, List.mem_cons_of_mem p hq, he⟩

theorem consumePlaceholder_some (cs r : List Char)
    (h : consumePlaceholder cs = some r) :
    ∃ p ∈ namingLits, cs = '{' :: (p ++ ('}' :: r)) :=
  consumeAny_some namingLits cs r h

theorem consumePlaceholder_render (p : List Char) (hp : p ∈ namingLits)
    (tail : List Char) :
    consumePlaceholder ('{' :: (p ++ ('}' :: tail))) = some tail := by
  simp only [namingLits, List.mem_cons, List.mem_singleton] at hp
  rcases hp with rfl | rfl | rfl | rfl | rfl | h
  · rfl
  · rfl
  · rfl
  · rfl
  · rfl
  · cases h

theorem renderTemplate_cons (p0 : List Char) (c : Char) (p1 : List Char)
    (rest : List (Char × List Char)) :
    renderTemplate p0 ((c, p1) :: rest) =
      '{' :: (p0 ++ ('}' :: (c :: renderTemplate p1 rest))) := rfl

theorem renderTemplate_length (rest : List (Char × List Char)) :
    ∀ p0, rest.length < (renderTemplate p0 rest).length := by
  induction rest with
  | nil => intro p0; simp [renderTemplate]
  | cons pr rest ih =>
    intro p0
    obtain ⟨c, p1⟩ := pr
    rw [renderTemplate_cons]
    have := ih p1
    simp only [List.length_cons, List.length_append]
    omega

theorem matchesFromFuel_sound (fuel : Nat) :
    ∀ cs, matchesFromFuel fuel cs = true → ValidTemplate cs := by
  induction fuel with
  | zero => intro cs h; simp [matchesFromFuel] at h
  | succ fuel ih =>
    intro cs h
    unfold matchesFromFuel at h
    cases hc : consumePlaceholder cs with
    | none => rw [hc] at h; cases h
    | some tail =>
      rw [hc] at h
      obtain ⟨p0, hp0, hcs⟩ := consumePlaceholder_some cs tail hc
      cases tail with
      | nil =>
        refine ⟨p0, [], hp0, by simp, ?_⟩
        simpa [renderTemplate] using hcs
      | cons c rest =>
        simp only [Bool.and_eq_true, Bool.or_eq_true, beq_iff_eq] at h
        obtain ⟨hsep, hrest⟩ := h
        obtain ⟨p1, rest1, hp1, hall, hre⟩ := ih rest hrest
        refine ⟨p0, (c, p1) :: rest1, hp0, ?_, ?_⟩
        · intro pr hpr
          rcases List.mem_cons.mp hpr with rfl | hm
          · exact ⟨hsep, hp1⟩
          · exact hall pr hm
        · rw [renderTemplate_cons, ← hre, hcs]

theorem matchesFromFuel_render (rest : List (Char × List Char)) :
    ∀ p0 fuel, p0 ∈ namingLits →
    (∀ pr ∈ rest, (pr.1 = '_' ∨ pr.1 = '-') ∧ pr.2 ∈ namingLits) →
    rest.length < fuel →
    matchesFromFuel fuel (renderTemplate p0 rest) = true := by
  induction rest with
  | nil =>
    intro p0 fuel hp0 _ hfuel
    cases fuel with
    | zero => omega
    | succ fuel =>
      unfold matchesFromFuel
      have h0 : renderTemplate p0 [] = '{' :: (p0 ++ ('}' :: [])) := by
        simp [renderTemplate]
      rw [h0, consumePlaceholder_render p0 hp0 []]
  | cons pr rest ih =>
    intro p0 fuel hp0 hall hfuel
    obtain ⟨c, p1⟩ := pr
    cases fuel with
    | zero => omega
    | succ fuel =>
      unfold matchesFromFuel
      rw [renderTemplate_cons, consumePlaceholder_render p0 hp0 _]
      have hc : (c = '_' ∨ c = '-') := (hall (c, p1) (List.mem_cons_self _ _)).1
      have hp1 : p1 ∈ namingLits := (hall (c, p1) (List.mem_cons_self _ _)).2
      have hrec : matchesFromFuel fuel (renderTemplate p1 rest) = true := by
        refine ih p1 fuel hp1 (fun q hq => hall q (List.mem_cons_of_mem _ hq)) ?_
        simp only [List.length_cons] at hfuel
        omega
      rcases hc with rfl | rfl <;> simp [hrec]

theorem matchesNamingTemplate_iff (s : String) :
    matchesNamingTemplate s = true ↔ ValidTemplate s.data := by
  constructor
  · exact matchesFromFuel_sound (s.data.length + 1) s.data
  · rintro ⟨p0, rest, hp0, hall, hre⟩
    unfold matchesNamingTemplate
    rw [hre]
    refine matchesFromFuel_render rest p0 _ hp0 hall ?_
    exact Nat.lt_succ_of_lt (renderTemplate_length rest p0)

/-- Downloader settings (interface `DownloaderSettings` in `lib/api.ts`). -/
structure DownloaderSettings where
  user_list : List UserTarget
  douyin_cookie : String
  max_tasks : Nat
  page_counts : Nat
  max_counts : Option Nat
  timeout : Nat
  max_retries : Nat
  max_connections : Nat
  mode : String
  music : Bool
  cover : Bool
  desc : Bool
  folderize : Bool
  naming : String
  interval : String
  update_exif : Bool
  incremental_mode : Bool
  incremental_threshold : Nat
  download_path : String
deriving DecidableEq

/-- Outcome of `onSaveSettings` in `SettingsPanel`: the validation error is
thrown before `api.saveSettings` is reached, so the stored settings stay
untouched on that path; otherwise `api.saveSettings(payload)` is invoked. -/
inductive SaveOutcome where
  | validationError (msg : String)
  | saved (payload : DownloaderSettings)
deriving DecidableEq

def namingErrorMsg : String :=
  "命名模板仅支持 {nickname}/{create}/{aweme_id}/{desc}/{uid}，分隔符仅支持 _ 或 -"

/-- Function `onSaveSettings` from `SettingsPanel.tsx`: trim the naming template, throw
synchronously when it fails `NAMING_TEMPLATE_PATTERN`, otherwise call
`api.saveSettings` with the normalized payload (`mode` forced to `post`,
user list normalized). -/
def onSaveSettings (settings : DownloaderSettings) : SaveOutcome :=
  let naming := trimStr settings.naming
  if matchesNamingTemplate naming then
    SaveOutcome.saved
      { settings with
        mode := "post"
        naming := naming
        user_list := normalizeUserList settings.user_list }
  else SaveOutcome.validationError namingErrorMsg

/-- CLAIM C7. The trimmed naming template is accepted iff it is a non-empty
sequence of placeholders from `nickname/create/aweme_id/desc/uid` joined by
single `_` or `-` separators; on mismatch `onSaveSettings` raises the
validation error synchronously and `api.saveSettings` is never invoked (so the
stored settings are unchanged); on match it proceeds to save. -/
theorem naming_template_gate (s : String) (settings : DownloaderSettings) :
    (matchesNamingTemplate s = true ↔ ValidTemplate s.data)
    ∧ (matchesNamingTemplate (trimStr settings.naming) = false →
        onSaveSettings settings = SaveOutcome.validationError namingErrorMsg)
    ∧ (matchesNamingTemplate (trimStr settings.naming) = true →
        onSaveSettings settings =
          SaveOutcome.saved
            { settings with
              mode := "post"
              naming := trimStr settings.naming
              user_list := normalizeUserList settings.user_list }) := by
  refine ⟨matchesNamingTemplate_iff s, ?_, ?_⟩
  · intro h
    simp [onSaveSettings, h]
  · intro h
    simp [onSaveSettings, h]

/-- A concrete settings value used to witness the validation gate. -/
def badNamingSettings : DownloaderSettings :=
  { user_list := [⟨"a", "u"⟩], douyin_cookie := "", max_tasks := 1,
    page_counts := 1, max_counts := none, timeout := 1, max_retries := 0,
    max_connections := 1, mode := "post", music := false, cover := false,
    desc := false, folderize := false, naming := " {create}-bad ",
    interval := "", update_exif := false, incremental_mode := false,
    incremental_threshold := 1, download_path := "/d" }

/-- Witness for C7: an invalid trimmed template is rejected before saving. -/
theorem naming_template_gate_witness :
    onSaveSettings badNamingSettings = SaveOutcome.validationError namingErrorMsg :=
  (naming_template_gate "" badNamingSettings).2.1 (by decide)

/-- A pagination token of `TasksPanel`: a page number or an ellipsis. -/
inductive PaginationToken where
  | page (n : Int)
  | ellipsisLeft
  | ellipsisRight
deriving DecidableEq

/-- Source `const safeCurrentPage = Math.max(1, Math.min(totalPages, currentPage))`. -/
def safeCurrent (totalPages currentPage : Int) : Int :=
  max 1 (min totalPages currentPage)

/-- Source `const windowStart = Math.max(2, safeCurrentPage - 1)`. -/
def windowStartOf (totalPages currentPage : Int) : Int :=
  max 2 (safeCurrent totalPages currentPage - 1)

/-- Source `const windowEnd = Math.min(totalPages - 1, safeCurrentPage + 1)`. -/
def windowEndOf (totalPages currentPage : Int) : Int :=
  min (totalPages - 1) (safeCurrent totalPages currentPage + 1)

/-- The loop `for (page = windowStart; page <= windowEnd; page += 1)
tokens.push(page)`. -/
def pagesFromTo (a b : Int) : List PaginationToken :=
  (List.range (b + 1 - a).toNat).map (fun i : Nat => PaginationToken.page (a + (i : Int)))

/-- Function `buildPaginationTokens` from `TasksPanel.tsx`. -/
def buildPaginationTokens (totalPages currentPage : Int) : List PaginationToken :=
  if totalPages ≤ 1 then [PaginationToken.page 1]
  else if totalPages ≤ 7 then
    (List.range totalPages.toNat).map (fun i : Nat => PaginationToken.page ((i : Int) + 1))
  else
    [PaginationToken.page 1]
      ++ (if 2 < windowStartOf totalPages currentPage then
            [PaginationToken.ellipsisLeft] else [])
      ++ pagesFromTo (windowStartOf totalPages currentPage)
          (windowEndOf totalPages currentPage)
      ++ (if windowEndOf totalPages currentPage < totalPages - 1 then
            [PaginationToken.ellipsisRight] else [])
      ++ [PaginationToken.page totalPages]

/-- The page numbers carried by a token list, in order. -/
def pageValues (l : List PaginationToken) : List Int :=
  l.filterMap (fun t =>
    match t with
    | PaginationToken.page n => some n
    | _ => none)

theorem mem_pagesFromTo (a b p : Int) :
    PaginationToken.page p ∈ pagesFromTo a b ↔ a ≤ p ∧ p ≤ b := by
  simp only [pagesFromTo, List.mem_map, List.mem_range, PaginationToken.page.injEq]
  constructor
  · rintro ⟨i, hi, rfl⟩
    omega
  · intro h
    exact ⟨(p - a).toNat, by omega, by omega⟩

theorem pageValues_map_page (f : Nat → Int) (l : List Nat) :
    pageValues (l.map (fun i => PaginationToken.page (f i))) = l.map f := by
  induction l with
  | nil => rfl
  | cons a l ih =>
    unfold pageValues at ih ⊢
    simp only [List.map_cons, List.filterMap_cons]
    rw [ih]

theorem pairwise_lt_map_range (n : Nat) (f : Nat → Int)
    (hf : ∀ i j : Nat, i < j → f i < f j) :
    ((List.range n).map f).Pairwise (· < ·) :=
  (List.pairwise_lt_range n).map f hf

/-- CLAIM C10. For `totalPages ≥ 1`, `buildPaginationTokens` yields strictly
increasing page numbers, begins with page 1 and ends with page `totalPages`
when `totalPages > 1`, contains every page of the current window clamped to
`[2, totalPages − 1]`, equals `[1, …, totalPages]` when `totalPages ≤ 7`, and
carries an ellipsis exactly when the window is not adjacent to the first
(resp. last) page. -/
theorem build_pagination_tokens_spec (tp cp : Int) (htp : 1 ≤ tp) :
    (pageValues (buildPaginationTokens tp cp)).Pairwise (· < ·)
    ∧ (1 < tp →
        (buildPaginationTokens tp cp).head? = some (PaginationToken.page 1)
        ∧ (buildPaginationTokens tp cp).getLast? = some (PaginationToken.page tp))
    ∧ (∀ p : Int, max 2 (cp - 1) ≤ p → p ≤ min (tp - 1) (cp + 1) →
        PaginationToken.page p ∈ buildPaginationTokens tp cp)
    ∧ (tp ≤ 7 → buildPaginationTokens tp cp =
        (List.range tp.toNat).map (fun i : Nat => PaginationToken.page ((i : Int) + 1)))
    ∧ (7 < tp →
        ((PaginationToken.ellipsisLeft ∈ buildPaginationTokens tp cp ↔
            2 < windowStartOf tp cp)
        ∧ (PaginationToken.ellipsisRight ∈ buildPaginationTokens tp cp ↔
            windowEndOf tp cp < tp - 1)))
    ∧ (tp ≤ 7 →
        PaginationToken.ellipsisLeft ∉ buildPaginationTokens tp cp
        ∧ PaginationToken.ellipsisRight ∉ buildPaginationTokens tp cp) := by
  by_cases h1 : tp ≤ 1
  · have hT : buildPaginationTokens tp cp = [PaginationToken.page 1] := by
      unfold buildPaginationTokens
      rw [if_pos h1]
    have htp1 : tp = 1 := le_antisymm h1 htp
    refine ⟨?_, ?_, ?_, ?_, ?_, ?_⟩
    · rw [hT]; simp [pageValues]
    · intro h; omega
    · intro p hp1 hp2; omega
    · intro _; rw [hT, htp1]; decide
    · intro h; omega
    · intro _; rw [hT]; simp
  · by_cases h7 : tp ≤ 7
    · have hT : buildPaginationTokens tp cp =
          (List.range tp.toNat).map (fun i : Nat => PaginationToken.page ((i : Int) + 1)) := by
        unfold buildPaginationTokens
        rw [if_neg h1, if_pos h7]
      obtain ⟨n, hn⟩ : ∃ n, tp.toNat = n + 1 := ⟨tp.toNat - 1, by omega⟩
      refine ⟨?_, ?_, ?_, fun _ => hT, ?_, ?_⟩
      · rw [hT, pageValues_map_page]
        exact pairwise_lt_map_range _ _ (fun i j hij => by omega)
      · intro _
        constructor
        · rw [hT, hn, List.range_succ_eq_map]
          simp
        · rw [hT, hn, List.range_succ, List.map_append]
          have hval : ((n : Int) + 1) = tp := by omega
          simp [List.getLast?_concat, hval]
      · intro p hp1 hp2
        rw [hT]
        refine List.mem_map.mpr ⟨(p - 1).toNat, List.mem_range.mpr (by omega), ?_⟩
        have hval : (((p - 1).toNat : Int) + 1) = p := by omega
        rw [hval]
      · intro h; omega
      · intro _
        rw [hT]
        constructor <;> · intro hmem
                          obtain ⟨i, _, he⟩ := List.mem_map.mp hmem
                          cases he
    · have h8 : 7 < tp := by omega
      have hT : buildPaginationTokens tp cp =
          [PaginationToken.page 1]
            ++ (if 2 < windowStartOf tp cp then [PaginationToken.ellipsisLeft] else [])
            ++ pagesFromTo (windowStartOf tp cp) (windowEndOf tp cp)
            ++ (if windowEndOf tp cp < tp - 1 then [PaginationToken.ellipsisRight] else [])
            ++ [PaginationToken.page tp] := by
        unfold buildPaginationTokens
        rw [if_neg h1, if_neg h7]
      have hsc1 : 1 ≤ safeCurrent tp cp := le_max_left 1 _
      have hsctp : safeCurrent tp cp ≤ tp := by
        unfold safeCurrent
        omega
      have hws2 : 2 ≤ windowStartOf tp cp := le_max_left 2 _
      have hwetp : windowEndOf tp cp ≤ tp - 1 := min_le_left _ _
      have hwswe : windowStartOf tp cp ≤ windowEndOf tp cp := by
        unfold windowStartOf windowEndOf
        omega
      have hLzero : pageValues
          (if 2 < windowStartOf tp cp then [PaginationToken.ellipsisLeft] else []) = [] := by
        by_cases h : 2 < windowStartOf tp cp <;> simp [h, pageValues]
      have hRzero : pageValues
          (if windowEndOf tp cp < tp - 1 then [PaginationToken.ellipsisRight] else []) = [] := by
        by_cases h : windowEndOf tp cp < tp - 1 <;> simp [h, pageValues]
      have hv := pageValues_map_page (fun i : Nat => windowStartOf tp cp + (i : Int))
        (List.range ((windowEndOf tp cp + 1 - windowStartOf tp cp).toNat))
      have hshape : pageValues (buildPaginationTokens tp cp) =
          (1 : Int) ::
            ((List.range ((windowEndOf tp cp + 1 - windowStartOf tp cp).toNat)).map
                (fun i : Nat => windowStartOf tp cp + (i : Int)) ++ [tp]) := by
        rw [hT]
        unfold pageValues at hLzero hRzero hv ⊢
        simp only [List.filterMap_append, hLzero, hRzero]
        rw [show pagesFromTo (windowStartOf tp cp) (windowEndOf tp cp) =
            (List.range ((windowEndOf tp cp + 1 - windowStartOf tp cp).toNat)).map
              (fun i : Nat => PaginationToken.page (windowStartOf tp cp + (i : Int)))
          from rfl]
        rw [hv]
        simp
      refine ⟨?_, ?_, ?_, ?_, ?_, ?_⟩
      · rw [hshape, List.pairwise_cons]
        constructor
        · intro b hb
          rcases List.mem_append.mp hb with hb | hb
          · obtain ⟨i, hi, rfl⟩ := List.mem_map.mp hb
            omega
          · simp only [List.mem_singleton] at hb
            omega
        · rw [List.pairwise_append]
          refine ⟨pairwise_lt_map_range _ _ (fun i j hij => by omega), by simp, ?_⟩
          intro a ha b hb
          simp only [List.mem_singleton] at hb
          obtain ⟨i, hi, rfl⟩ := List.mem_map.mp ha
          have := List.mem_range.mp hi
          subst hb
          omega
      · intro _
        constructor
        · rw [hT]
          rfl
        · rw [hT]
          exact List.getLast?_concat _
      · intro p hp1 hp2
        have hwin : windowStartOf tp cp ≤ p ∧ p ≤ windowEndOf tp cp := by
          unfold windowStartOf windowEndOf safeCurrent
          omega
        rw [hT]
        refine List.mem_append.mpr (Or.inl ?_)
        refine List.mem_append.mpr (Or.inl ?_)
        refine List.mem_append.mpr (Or.inr ?_)
        exact (mem_pagesFromTo _ _ p).mpr hwin
      · intro h; omega
      · intro _
        constructor
        · by_cases hL : 2 < windowStartOf tp cp
          · simp only [hT, if_pos hL]
            simp [pagesFromTo, hL]
          · simp only [hT, if_neg hL]
            simp [pagesFromTo, hL]
        · by_cases hR : windowEndOf tp cp < tp - 1
          · simp only [hT, if_pos hR]
            simp [pagesFromTo, hR]
          · simp only [hT, if_neg hR]
            simp [pagesFromTo, hR]
      · intro h; omega

/-- Witness for C10 at `totalPages = 9`, `currentPage = 5`. -/
theorem build_pagination_tokens_spec_witness :
    (pageValues (buildPaginationTokens 9 5)).Pairwise (· < ·)
    ∧ PaginationToken.page 4 ∈ buildPaginationTokens 9 5 :=
  ⟨(build_pagination_tokens_spec 9 5 (by decide)).1,
    (build_pagination_tokens_spec 9 5 (by decide)).2.2.1 4 (by decide) (by decide)⟩

end F2WebApp
